import Mathlib

/-!
Verification of the Calc2_formula_lib rule-based differentiation layer.

The repository's core (`_core.py`, `derivative_rule.py`, `calculator.py`)
is a rule-dispatch layer over an external computer-algebra engine.  The
engine primitives the core consumes (parse, simplify, expand, diff,
factor_terms, as_independent, is_polynomial, structural introspection) are
modelled here as executable functions over a symbolic expression tree; the
rule matchers, the dispatcher and the fallback differentiator are
translated from the source.
-/

namespace Calc2

/-- Symbolic expression trees: the fragment of the external engine's
language the rule layer inspects.  Integer constants, symbols, n-ary sums
and products (the engine keeps sums and products flattened, and the
product-rule matcher counts the factors of such an n-ary product), powers,
and the function applications exp, log (natural logarithm), sin, cos. -/
inductive Expr where
  | num : Int → Expr
  | sym : String → Expr
  | add : List Expr → Expr
  | mul : List Expr → Expr
  | pow : Expr → Expr → Expr
  | exp : Expr → Expr
  | log : Expr → Expr
  | sin : Expr → Expr
  | cos : Expr → Expr

mutual

/-- Structural (boolean) equality of expressions, the engine's `==`. -/
def beqE : Expr → Expr → Bool
  | .num a, .num b => a == b
  | .sym a, .sym b => a == b
  | .add a, .add b => beqL a b
  | .mul a, .mul b => beqL a b
  | .pow a b, .pow c d => beqE a c && beqE b d
  | .exp a, .exp b => beqE a b
  | .log a, .log b => beqE a b
  | .sin a, .sin b => beqE a b
  | .cos a, .cos b => beqE a b
  | _, _ => false

/-- Structural equality of lists of expressions. -/
def beqL : List Expr → List Expr → Bool
  | [], [] => true
  | a :: as, b :: bs => beqE a b && beqL as bs
  | _, _ => false

end

mutual

/-- Models the engine's occurrence check `Expr.has(x)`: whether the symbol
named `x` occurs anywhere in the expression. -/
def Expr.hasVar (x : String) : Expr → Bool
  | .num _ => false
  | .sym s => s == x
  | .add l => hasVarL x l
  | .mul l => hasVarL x l
  | .pow b e => Expr.hasVar x b || Expr.hasVar x e
  | .exp a => Expr.hasVar x a
  | .log a => Expr.hasVar x a
  | .sin a => Expr.hasVar x a
  | .cos a => Expr.hasVar x a

/-- Occurrence check over a list of subexpressions. -/
def hasVarL (x : String) : List Expr → Bool
  | [] => false
  | e :: es => Expr.hasVar x e || hasVarL x es

end

/-- Build a sum the way the engine does: an empty sum is 0, a one-element
sum is its element. -/
def mkAdd : List Expr → Expr
  | [] => .num 0
  | [e] => e
  | l => .add l

/-- Build a product the way the engine does: an empty product is 1, a
one-element product is its element. -/
def mkMul : List Expr → Expr
  | [] => .num 1
  | [e] => e
  | l => .mul l

/-- The terms of a sum (a non-sum is a single term). -/
def termsOf : Expr → List Expr
  | .add l => l
  | e => [e]

/-- The factors of a product (a non-product is a single factor). -/
def factorsOf : Expr → List Expr
  | .mul l => l
  | e => [e]

/-- Concatenate the terms of a list of expressions (flattens sums one
level). -/
def joinTerms : List Expr → List Expr
  | [] => []
  | e :: es => termsOf e ++ joinTerms es

/-- Concatenate the factors of a list of expressions (flattens products one
level). -/
def joinFactors : List Expr → List Expr
  | [] => []
  | e :: es => factorsOf e ++ joinFactors es

/-- Sum of the integer constants in a list. -/
def addNums : List Expr → Int
  | [] => 0
  | .num n :: es => n + addNums es
  | _ :: es => addNums es

/-- Product of the integer constants in a list. -/
def mulNums : List Expr → Int
  | [] => 1
  | .num n :: es => n * mulNums es
  | _ :: es => mulNums es

/-- The non-constant elements of a list, in order. -/
def nonNums : List Expr → List Expr
  | [] => []
  | .num _ :: es => nonNums es
  | e :: es => e :: nonNums es

/-- Whether a list contains the literal constant 0. -/
def hasZeroC : List Expr → Bool
  | [] => false
  | .num 0 :: _ => true
  | _ :: es => hasZeroC es

/-- Normalised sum of an already-flattened list: integer constants are
folded (and placed last when non-zero), as the engine's auto-evaluation
does. -/
def mkAddN (l : List Expr) : Expr :=
  let s := addNums l
  let rest := nonNums l
  if s == 0 then mkAdd rest else mkAdd (rest ++ [Expr.num s])

/-- Normalised product of an already-flattened list: a zero factor absorbs
the product, integer constants are folded and placed first, a unit
coefficient is dropped. -/
def mkMulN (l : List Expr) : Expr :=
  if hasZeroC l then .num 0
  else
    let p := mulNums l
    let rest := nonNums l
    if p == 1 then mkMul rest else mkMul (Expr.num p :: rest)

/-- Normalised power, with the engine's automatic evaluations: exponent 1
collapses, exponent 0 gives 1, and a non-negative integer power of an
integer is computed. -/
def mkPow (b e : Expr) : Expr :=
  match b, e with
  | b, .num 1 => b
  | _, .num 0 => .num 1
  | .num a, .num n => if 0 ≤ n then .num (a ^ n.toNat) else .pow (.num a) (.num n)
  | b, e => .pow b e

mutual

/-- Models the engine's `simplify` (spec section 6), as a conservative
normaliser: it flattens nested sums and products, folds integer constants,
removes additive and multiplicative identities, absorbs zero factors and
evaluates trivial integer powers.  It never expands products over sums and
never rewrites the base or exponent of a symbolic power, matching the
conservative behaviour the rule layer relies on (sums of products, powers
such as sin(2*x) or (x+1)*(x+2)*(x+3) keep their outer shape). -/
def simp0 : Expr → Expr
  | .num n => .num n
  | .sym s => .sym s
  | .add l => mkAddN (joinTerms (simpL l))
  | .mul l => mkMulN (joinFactors (simpL l))
  | .pow b e => mkPow (simp0 b) (simp0 e)
  | .exp a => .exp (simp0 a)
  | .log a => .log (simp0 a)
  | .sin a => .sin (simp0 a)
  | .cos a => .cos (simp0 a)

/-- The engine simplify mapped over a list of subexpressions. -/
def simpL : List Expr → List Expr
  | [] => []
  | e :: es => simp0 e :: simpL es

end

mutual

/-- Models the engine's `diff` (spec section 6): symbolic differentiation
with respect to the symbol `x`.  As in the engine, any subexpression free
of `x` differentiates to 0; otherwise the usual structural rules apply
(term-by-term on sums, the Leibniz sum over the factors of a product, the
general power rule, and the closed forms for exp, log, sin, cos). -/
def diffE (x : String) : Expr → Expr
  | .num _ => .num 0
  | .sym s => if s == x then .num 1 else .num 0
  | .add l => if hasVarL x l then .add (diffL x l) else .num 0
  | .mul l => if hasVarL x l then .add (diffMulL x l) else .num 0
  | .pow b e =>
      if Expr.hasVar x b || Expr.hasVar x e then
        if Expr.hasVar x e = false then
          .mul [e, .pow b (.add [e, .num (-1)]), diffE x b]
        else if Expr.hasVar x b = false then
          .mul [.pow b e, .log b, diffE x e]
        else
          .mul [.pow b e,
                .add [.mul [diffE x e, .log b],
                      .mul [e, diffE x b, .pow b (.num (-1))]]]
      else .num 0
  | .exp a => if Expr.hasVar x a then .mul [.exp a, diffE x a] else .num 0
  | .log a => if Expr.hasVar x a then .mul [diffE x a, .pow a (.num (-1))] else .num 0
  | .sin a => if Expr.hasVar x a then .mul [.cos a, diffE x a] else .num 0
  | .cos a => if Expr.hasVar x a then .mul [.num (-1), .sin a, diffE x a] else .num 0

/-- Differentiation mapped over the terms of a sum. -/
def diffL (x : String) : List Expr → List Expr
  | [] => []
  | e :: es => diffE x e :: diffL x es

/-- The Leibniz summands for the product of a list of factors: one summand
per position, differentiating that factor and keeping the others. -/
def diffMulL (x : String) : List Expr → List Expr
  | [] => []
  | e :: es =>
      Expr.mul (diffE x e :: es) :: (diffMulL x es).map (fun t => Expr.mul [e, t])

end

mutual

/-- Models the engine's `is_polynomial(x)` (spec section 6): whether the
expression is a polynomial in `x`.  Expressions free of `x` (including
transcendental expressions in other symbols) count as degree-0
polynomials, as in the engine. -/
def isPoly (x : String) : Expr → Bool
  | .num _ => true
  | .sym _ => true
  | .add l => isPolyL x l
  | .mul l => isPolyL x l
  | .pow b e =>
      if Expr.hasVar x e then false
      else if Expr.hasVar x b then
        match e with
        | .num n => decide (0 ≤ n) && isPoly x b
        | _ => false
      else true
  | .exp a => !Expr.hasVar x a
  | .log a => !Expr.hasVar x a
  | .sin a => !Expr.hasVar x a
  | .cos a => !Expr.hasVar x a

/-- Polynomial check over a list of subexpressions. -/
def isPolyL (x : String) : List Expr → Bool
  | [] => true
  | e :: es => isPoly x e && isPolyL x es

end

/-- Prepend each element of `l` to each list in `rest` (one step of a
cartesian product). -/
def consAll (l : List Expr) (rest : List (List Expr)) : List (List Expr) :=
  match l with
  | [] => []
  | e :: es => rest.map (fun fs => e :: fs) ++ consAll es rest

/-- Cartesian product of a list of lists: all ways of picking one element
from each. -/
def cross : List (List Expr) → List (List Expr)
  | [] => [[]]
  | l :: ls => consAll l (cross ls)

mutual

/-- Models the engine's `expand` (spec section 6): distributes products
over sums recursively, keeping sums and products flattened.  Powers and
function arguments are expanded in place. -/
def expandE : Expr → Expr
  | .num n => .num n
  | .sym s => .sym s
  | .add l => mkAdd (joinTerms (expandL l))
  | .mul l =>
      mkAdd ((cross ((expandL l).map termsOf)).map (fun fs => mkMul (joinFactors fs)))
  | .pow b e => .pow (expandE b) (expandE e)
  | .exp a => .exp (expandE a)
  | .log a => .log (expandE a)
  | .sin a => .sin (expandE a)
  | .cos a => .cos (expandE a)

/-- The engine expand mapped over a list of subexpressions. -/
def expandL : List Expr → List Expr
  | [] => []
  | e :: es => expandE e :: expandL es

end

/-- Models the engine's `as_independent(x, as_Add=False)` (spec section 6):
splits a product into (the product of its factors independent of `x`, the
product of its factors depending on `x`); a non-product is itself one side
or the other. -/
def as_independent (x : String) (e : Expr) : Expr × Expr :=
  match e with
  | .mul l => (mkMul (l.filter (fun f => !Expr.hasVar x f)),
               mkMul (l.filter (fun f => Expr.hasVar x f)))
  | e => if Expr.hasVar x e then (.num 1, e) else (e, .num 1)

/-- The integer coefficient of a term (1 when none is visible). -/
def intCoeff : Expr → Int
  | .num n => n
  | .mul l => mulNums l
  | _ => 1

/-- Divide the visible integer coefficient of a term by `g`. -/
def divCoeff (g : Int) : Expr → Expr
  | .num n => .num (n / g)
  | .mul l => if mulNums l / g == 1 then mkMul (nonNums l)
              else mkMul (Expr.num (mulNums l / g) :: nonNums l)
  | e => e

/-- Greatest common divisor of the coefficients of a list of terms. -/
def coeffGcd : List Expr → Nat
  | [] => 0
  | [e] => (intCoeff e).natAbs
  | e :: es => Nat.gcd (intCoeff e).natAbs (coeffGcd es)

/-- Models the engine's `factor_terms` (spec section 6): pulls a common
integer factor out of the terms of a sum (so `5*x^2 + 5` becomes
`5*(x^2 + 1)`); any other expression is returned unchanged. -/
def factor_terms (e : Expr) : Expr :=
  match e with
  | .add l =>
      let g := coeffGcd l
      if g ≤ 1 then .add l
      else .mul [.num (Int.ofNat g), .add (l.map (divCoeff (Int.ofNat g)))]
  | e => e

mutual

/-- A plain text rendering of an expression, used by the explanation
steps. -/
def render : Expr → String
  | .num n => toString n
  | .sym s => s
  | .add l => "(" ++ renderL " + " l ++ ")"
  | .mul l => "(" ++ renderL " * " l ++ ")"
  | .pow b e => "(" ++ render b ++ ")^(" ++ render e ++ ")"
  | .exp a => "exp(" ++ render a ++ ")"
  | .log a => "log(" ++ render a ++ ")"
  | .sin a => "sin(" ++ render a ++ ")"
  | .cos a => "cos(" ++ render a ++ ")"

/-- Render a list of expressions with a separator. -/
def renderL (sep : String) : List Expr → String
  | [] => ""
  | [e] => render e
  | e :: es => render e ++ sep ++ renderL sep es

end

/-- Whether an expression is literally a product (the dispatcher's
`isinstance(e, Mul)` check). -/
def isMul : Expr → Bool
  | .mul _ => true
  | _ => false

/-- The core's central value type (`_core.RuleResult`): the examined
input, the produced output, whether the rule applied, the rule's name, a
human-readable message, and the derivation steps. -/
structure RuleResult where
  input_expr : Expr
  output_expr : Expr
  applied : Bool
  rule_name : String
  message : String
  steps : List String

/-- Source `_core.not_applicable`: a result reporting that a rule did not apply;
the output is the input and the step trail is empty. -/
def not_applicable (input_expr : Expr) (rule_name message : String) : RuleResult :=
  { input_expr := input_expr
    output_expr := input_expr
    applied := false
    rule_name := rule_name
    message := message
    steps := [] }

/-- Source `derivative_rule.apply_power_rule_derivative`: the power rule in
polynomial-only mode.  The parsed expression is expanded; if it is not a
polynomial in the variable the rule reports not applicable, otherwise the
output is the simplified derivative of the expanded polynomial. -/
def apply_power_rule_derivative (expr : Expr) (var : String) : RuleResult :=
  let f := expandE expr
  if isPoly var f = false then
    not_applicable f "power_rule"
      "Not applicable: expression is not a polynomial in x (power-rule mode)."
  else
    { input_expr := f
      output_expr := simp0 (diffE var f)
      applied := true
      rule_name := "power_rule"
      message := "Applied power rule term-by-term (polynomial)."
      steps := ["Recognize polynomial in x.", "Differentiate each term."] }

/-- Source `derivative_rule.apply_constant_multiple_derivative`: factors common
terms, splits off the part independent of the variable, and applies
`d/dx(c*f) = c*f.diff(x)` when that part is not 1. -/
def apply_constant_multiple_derivative (expr : Expr) (var : String) : RuleResult :=
  let f_s := factor_terms expr
  let c := (as_independent var f_s).1
  let rest := (as_independent var f_s).2
  if beqE c (.num 1) then
    not_applicable f_s "constant_multiple_rule"
      "Not applicable: no constant multiple factor found."
  else
    { input_expr := f_s
      output_expr := simp0 (.mul [c, diffE var rest])
      applied := true
      rule_name := "constant_multiple_rule"
      message := "Applied constant multiple rule for derivatives."
      steps := ["Factor out constant c = " ++ render c ++ ".",
                "Differentiate the remaining part."] }

/-- Source `derivative_rule.apply_product_rule`: after simplification the
expression must be literally a product; the variable-independent factors
are split off, and the rule applies only when exactly two factors depend
on the variable. -/
def apply_product_rule (expr : Expr) (var : String) : RuleResult :=
  let e := simp0 expr
  if isMul e = false then
    not_applicable e "product_rule" "Not applicable: expression is not a product."
  else
    let c := (as_independent var e).1
    let factors := factorsOf (as_independent var e).2
    let nonconst := factors.filter (fun f => Expr.hasVar var f)
    match nonconst with
    | [f1, f2] =>
      { input_expr := e
        output_expr := simp0 (.mul [c, .add [.mul [f1, diffE var f2],
                                             .mul [diffE var f1, f2]]])
        applied := true
        rule_name := "product_rule"
        message := "Applied product rule."
        steps := ["Identify f(x) and g(x).", "Compute f times dg/dx plus df/dx times g."] }
    | _ =>
      not_applicable e "product_rule"
        "Not applicable: product rule requires exactly two x-dependent factors (simple mode)."

/-- The chain-rule matcher's dispatch over the simplified expression's
outer form (`derivative_rule.apply_chain_rule`, after its `simplify`
call): the five supported patterns, else not applicable. -/
def chainAux (var : String) (e : Expr) : RuleResult :=
  match e with
  | .pow g n =>
      if Expr.hasVar var g = true ∧ Expr.hasVar var n = false ∧ beqE n (.num 1) = false then
        { input_expr := .pow g n
          output_expr := simp0 (.mul [n, .pow g (.add [n, .num (-1)]), diffE var g])
          applied := true
          rule_name := "chain_rule"
          message := "Applied chain rule for power of inner function."
          steps := ["Match pattern (g(x))^n.",
                    "Derivative: n times (g(x))^(n-1) times dg/dx."] }
      else
        not_applicable (.pow g n) "chain_rule"
          "Not applicable: expression does not match supported chain-rule patterns (simple mode)."
  | .exp g =>
      if Expr.hasVar var g then
        { input_expr := .exp g
          output_expr := simp0 (.mul [.exp g, diffE var g])
          applied := true
          rule_name := "chain_rule"
          message := "Applied chain rule for exponential."
          steps := ["Match pattern exp(g(x)).", "Derivative: exp(g(x)) times dg/dx."] }
      else
        not_applicable (.exp g) "chain_rule"
          "Not applicable: expression does not match supported chain-rule patterns (simple mode)."
  | .log g =>
      if Expr.hasVar var g then
        { input_expr := .log g
          output_expr := simp0 (.mul [diffE var g, .pow g (.num (-1))])
          applied := true
          rule_name := "chain_rule"
          message := "Applied chain rule for natural log."
          steps := ["Match pattern ln(g(x)).", "Derivative: dg/dx divided by g(x)."] }
      else
        not_applicable (.log g) "chain_rule"
          "Not applicable: expression does not match supported chain-rule patterns (simple mode)."
  | .sin g =>
      if Expr.hasVar var g then
        { input_expr := .sin g
          output_expr := simp0 (.mul [.cos g, diffE var g])
          applied := true
          rule_name := "chain_rule"
          message := "Applied chain rule for sine."
          steps := ["Match pattern sin(g(x)).", "Derivative: cos(g(x)) times dg/dx."] }
      else
        not_applicable (.sin g) "chain_rule"
          "Not applicable: expression does not match supported chain-rule patterns (simple mode)."
  | .cos g =>
      if Expr.hasVar var g then
        { input_expr := .cos g
          output_expr := simp0 (.mul [.num (-1), .sin g, diffE var g])
          applied := true
          rule_name := "chain_rule"
          message := "Applied chain rule for cosine."
          steps := ["Match pattern cos(g(x)).", "Derivative: minus sin(g(x)) times dg/dx."] }
      else
        not_applicable (.cos g) "chain_rule"
          "Not applicable: expression does not match supported chain-rule patterns (simple mode)."
  | e =>
      not_applicable e "chain_rule"
        "Not applicable: expression does not match supported chain-rule patterns (simple mode)."

/-- Source `derivative_rule.apply_chain_rule`: simplify, then test the five
supported outer forms. -/
def apply_chain_rule (expr : Expr) (var : String) : RuleResult :=
  chainAux var (simp0 expr)

/-- Source `derivative_rule.apply_exponential_derivative_rule`: the rule
`d/dx(a^x) = a^x ln(a)`.  The parse is inspected with no prior
simplification; the expression must be a power whose exponent is literally
the bare variable and whose base does not depend on it. -/
def apply_exponential_derivative_rule (expr : Expr) (var : String) : RuleResult :=
  match expr with
  | .pow a expo =>
      if beqE expo (.sym var) = false then
        not_applicable (.pow a expo) "exponential_rule" "Not applicable: exponent is not x."
      else if Expr.hasVar var a then
        not_applicable (.pow a expo) "exponential_rule" "Not applicable: base a is not constant."
      else
        { input_expr := .pow a expo
          output_expr := simp0 (.mul [.pow a expo, .log a])
          applied := true
          rule_name := "exponential_rule"
          message := "Applied exponential derivative rule."
          steps := ["Match pattern a^x with constant a.", "Derivative: a^x ln(a)."] }
  | e => not_applicable e "exponential_rule" "Not applicable: expression is not a^x."

/-- Tokens of the textual expression language the engine's parser accepts:
integer literals, identifiers, the arithmetic operators (both `^` and `**`
denote powers, as with the `convert_xor` transformation), and
parentheses. -/
inductive Tok where
  | num : Int → Tok
  | ident : String → Tok
  | plus : Tok
  | minus : Tok
  | star : Tok
  | slash : Tok
  | caret : Tok
  | lparen : Tok
  | rparen : Tok

/-- Longest digit run at the front of a character list. -/
def takeDigits : List Char → List Char × List Char
  | [] => ([], [])
  | c :: cs =>
      if c.isDigit then
        let p := takeDigits cs
        (c :: p.1, p.2)
      else ([], c :: cs)

/-- Longest identifier run (letters, digits, underscores) at the front of
a character list. -/
def takeIdent : List Char → List Char × List Char
  | [] => ([], [])
  | c :: cs =>
      if c.isAlpha || c.isDigit || c == '_' then
        let p := takeIdent cs
        (c :: p.1, p.2)
      else ([], c :: cs)

/-- Decimal value of a digit list. -/
def digitsVal : List Char → Int
  | [] => 0
  | ds => ds.foldl (fun acc c => acc * 10 + Int.ofNat (c.toNat - '0'.toNat)) 0

/-- Tokenizer for the engine's expression syntax; `none` on a character it
does not know.  Fuel bounds the recursion; a call with fuel at least the
length of the input never runs out. -/
def tokenize : Nat → List Char → Option (List Tok)
  | 0, _ => none
  | _, [] => some []
  | fuel + 1, c :: cs =>
      if c == ' ' then tokenize fuel cs
      else if c.isDigit then
        let p := takeDigits (c :: cs)
        (tokenize fuel p.2).map (fun ts => Tok.num (digitsVal p.1) :: ts)
      else if c.isAlpha || c == '_' then
        let p := takeIdent (c :: cs)
        (tokenize fuel p.2).map (fun ts => Tok.ident (String.mk p.1) :: ts)
      else if c == '+' then (tokenize fuel cs).map (Tok.plus :: ·)
      else if c == '-' then (tokenize fuel cs).map (Tok.minus :: ·)
      else if c == '*' then
        match cs with
        | '*' :: cs2 => (tokenize fuel cs2).map (Tok.caret :: ·)
        | _ => (tokenize fuel cs).map (Tok.star :: ·)
      else if c == '/' then (tokenize fuel cs).map (Tok.slash :: ·)
      else if c == '^' then (tokenize fuel cs).map (Tok.caret :: ·)
      else if c == '(' then (tokenize fuel cs).map (Tok.lparen :: ·)
      else if c == ')' then (tokenize fuel cs).map (Tok.rparen :: ·)
      else none

/-- The function names the engine's parser resolves to function
applications; any other identifier stays a bare symbol. -/
def applyFun (f : String) (a : Expr) : Expr :=
  if f == "sin" then .sin a
  else if f == "cos" then .cos a
  else if f == "exp" then .exp a
  else if f == "ln" then .log a
  else if f == "log" then .log a
  else .mul [.sym f, a]

/-- Whether a token can start an atom (used for implicit
multiplication). -/
def startsAtom : Tok → Bool
  | .num _ => true
  | .ident _ => true
  | .lparen => true
  | _ => false

mutual

/-- Parse one atom: a literal, an identifier or function application, a
parenthesised expression, or a unary minus. -/
def parseAtom : Nat → List Tok → Option (Expr × List Tok)
  | 0, _ => none
  | _ + 1, [] => none
  | _ + 1, Tok.num n :: r => some (.num n, r)
  | fuel + 1, Tok.ident f :: Tok.lparen :: r =>
      match parseBin fuel 0 r with
      | some (a, Tok.rparen :: r2) => some (applyFun f a, r2)
      | _ => none
  | _ + 1, Tok.ident s :: r => some (.sym s, r)
  | fuel + 1, Tok.lparen :: r =>
      match parseBin fuel 0 r with
      | some (a, Tok.rparen :: r2) => some (a, r2)
      | _ => none
  | fuel + 1, Tok.minus :: r =>
      match parseBin fuel 20 r with
      | some (a, r2) => some (.mul [.num (-1), a], r2)
      | _ => none
  | _ + 1, _ => none

/-- Precedence-climbing loop: `+` and `-` bind at 10, `*`, `/` and
implicit multiplication at 20, `^` at 30 (right associative). -/
def parseLoop : Nat → Nat → Expr → List Tok → Option (Expr × List Tok)
  | 0, _, _, _ => none
  | _ + 1, _, lhs, [] => some (lhs, [])
  | fuel + 1, minPrec, lhs, t :: r =>
      match t with
      | Tok.plus =>
          if minPrec ≤ 10 then
            match parseBin fuel 11 r with
            | some (rhs, r2) => parseLoop fuel minPrec (.add [lhs, rhs]) r2
            | none => none
          else some (lhs, t :: r)
      | Tok.minus =>
          if minPrec ≤ 10 then
            match parseBin fuel 11 r with
            | some (rhs, r2) => parseLoop fuel minPrec (.add [lhs, .mul [.num (-1), rhs]]) r2
            | none => none
          else some (lhs, t :: r)
      | Tok.star =>
          if minPrec ≤ 20 then
            match parseBin fuel 21 r with
            | some (rhs, r2) => parseLoop fuel minPrec (.mul [lhs, rhs]) r2
            | none => none
          else some (lhs, t :: r)
      | Tok.slash =>
          if minPrec ≤ 20 then
            match parseBin fuel 21 r with
            | some (rhs, r2) => parseLoop fuel minPrec (.mul [lhs, .pow rhs (.num (-1))]) r2
            | none => none
          else some (lhs, t :: r)
      | Tok.caret =>
          if minPrec ≤ 30 then
            match parseBin fuel 30 r with
            | some (rhs, r2) => parseLoop fuel minPrec (.pow lhs rhs) r2
            | none => none
          else some (lhs, t :: r)
      | t =>
          if startsAtom t && minPrec ≤ 20 then
            match parseBin fuel 21 (t :: r) with
            | some (rhs, r2) => parseLoop fuel minPrec (.mul [lhs, rhs]) r2
            | none => none
          else some (lhs, t :: r)

/-- Parse an expression at a minimum operator precedence. -/
def parseBin (fuel minPrec : Nat) (ts : List Tok) : Option (Expr × List Tok) :=
  match fuel with
  | 0 => none
  | fuel + 1 =>
      match parseAtom fuel ts with
      | some (lhs, r) => parseLoop fuel minPrec lhs r
      | none => none

end

mutual

/-- Flatten nested sums and products into the n-ary form the engine keeps
them in (its `Add`/`Mul` auto-flattening at construction). -/
def flatten : Expr → Expr
  | .num n => .num n
  | .sym s => .sym s
  | .add l => mkAdd (joinTerms (flattenL l))
  | .mul l => mkMul (joinFactors (flattenL l))
  | .pow b e => .pow (flatten b) (flatten e)
  | .exp a => .exp (flatten a)
  | .log a => .log (flatten a)
  | .sin a => .sin (flatten a)
  | .cos a => .cos (flatten a)

/-- Flattening mapped over a list of subexpressions. -/
def flattenL : List Expr → List Expr
  | [] => []
  | e :: es => flatten e :: flattenL es

end

/-- Models the engine's `parse` (spec section 6, consumed by
`_core.parse_expr` with the implicit-multiplication and `convert_xor`
transformations): tokenize, parse with operator precedence, require the
whole input consumed, and flatten sums and products.  `none` on malformed
input. -/
def parseEngine (s : String) : Option Expr :=
  match tokenize (s.length + 1) s.data with
  | none => none
  | some ts =>
      match parseBin (ts.length * 2 + 2) 0 ts with
      | some (e, []) => some (flatten e)
      | _ => none

/-- The two error kinds of the core (spec section 7): a parse failure
carrying the offending text, and an unknown dispatcher rule name carrying
the invalid name; each with its user-facing message. -/
inductive CalcError where
  | invalidExpression (text : String) (message : String)
  | unknownRule (rule : String) (message : String)

/-- The message `_core.parse_expr` attaches to a parse failure. -/
def invalidExprMsg (s : String) : String :=
  "Invalid expression: " ++ s ++ ". Please provide a valid math expression in x."

/-- The message `calculator.apply_derivative_rule` attaches to an unknown
rule name. -/
def unknownRuleMsg (rule : String) : String :=
  "Unknown rule " ++ rule ++
    ". Allowed values: auto, power_rule, constant_multiple_rule, product_rule, chain_rule, exponential_rule."

/-- Source `calculator.apply_derivative_rule`, auto branch: run the matchers
in the fixed priority order, return the first applied result, else the
last matcher's (exponential rule's) not-applicable result. -/
def runAuto (expr : Expr) (var : String) : RuleResult :=
  let r1 := apply_power_rule_derivative expr var
  if r1.applied then r1 else
  let r2 := apply_constant_multiple_derivative expr var
  if r2.applied then r2 else
  let r3 := apply_product_rule expr var
  if r3.applied then r3 else
  let r4 := apply_chain_rule expr var
  if r4.applied then r4 else
  apply_exponential_derivative_rule expr var

/-- The fixed rule-name-to-matcher table of
`calculator.apply_derivative_rule`. -/
def rule_map (name : String) : Option (Expr → String → RuleResult) :=
  if name == "power_rule" then some apply_power_rule_derivative
  else if name == "constant_multiple_rule" then some apply_constant_multiple_derivative
  else if name == "product_rule" then some apply_product_rule
  else if name == "chain_rule" then some apply_chain_rule
  else if name == "exponential_rule" then some apply_exponential_derivative_rule
  else none

/-- Source `calculator.apply_derivative_rule`: dispatch on the rule choice —
`auto` runs the priority order, a known name runs exactly that matcher,
anything else raises the unknown-rule error. -/
def apply_derivative_rule (expr : Expr) (var : String) (rule : String) :
    Except CalcError RuleResult :=
  if rule == "auto" then .ok (runAuto expr var)
  else
    match rule_map rule with
    | some f => .ok (f expr var)
    | none => .error (.unknownRule rule (unknownRuleMsg rule))

/-- Source `_core.parse_expr` on textual input: delegate to the engine's parse,
turning a parse failure into the `InvalidExpressionError` carrying the
offending text.  (On an already-built expression `parse_expr` is the
identity, which is how the expression-level matchers above consume it.) -/
def parse_expr (s : String) : Except CalcError Expr :=
  match parseEngine s with
  | some e => .ok e
  | none => .error (.invalidExpression s (invalidExprMsg s))

/-- The power-rule matcher on textual input: parse, then match; a parse
failure propagates as the error. -/
def powerRuleStr (s var : String) : Except CalcError RuleResult :=
  (parse_expr s).map (fun e => apply_power_rule_derivative e var)

/-- The constant-multiple matcher on textual input. -/
def constantMultipleStr (s var : String) : Except CalcError RuleResult :=
  (parse_expr s).map (fun e => apply_constant_multiple_derivative e var)

/-- The product-rule matcher on textual input. -/
def productRuleStr (s var : String) : Except CalcError RuleResult :=
  (parse_expr s).map (fun e => apply_product_rule e var)

/-- The chain-rule matcher on textual input. -/
def chainRuleStr (s var : String) : Except CalcError RuleResult :=
  (parse_expr s).map (fun e => apply_chain_rule e var)

/-- The exponential-rule matcher on textual input. -/
def exponentialRuleStr (s var : String) : Except CalcError RuleResult :=
  (parse_expr s).map (fun e => apply_exponential_derivative_rule e var)

/-- Source `calculator.differentiate_with_rules`: delegate to the dispatcher in
auto mode; if nothing applied, fall back to the engine's generic
derivative wrapped as a `symbolic_fallback` result. -/
def differentiate_with_rules (expr : Expr) (var : String) : RuleResult :=
  let result := runAuto expr var
  if result.applied then result
  else
    { input_expr := expr
      output_expr := simp0 (diffE var expr)
      applied := true
      rule_name := "symbolic_fallback"
      message := "No simple rule matched; used symbolic differentiation fallback."
      steps := ["Apply generic symbolic derivative d/dx."] }

/-- Source `differentiate_with_rules` on textual input. -/
def differentiateStr (s var : String) : Except CalcError RuleResult :=
  (parse_expr s).map (fun e => differentiate_with_rules e var)

/-! ## Spec-side statements -/

/-- The spec's RuleResult invariant: a not-applied result reproduces its
input and has no steps; an applied result has a non-empty step trail and a
non-empty message; and the rule name is always set. -/
def resultInvariant (r : RuleResult) : Prop :=
  (r.applied = false → r.output_expr = r.input_expr ∧ r.steps = []) ∧
  (r.applied = true → r.steps ≠ [] ∧ r.message ≠ "") ∧
  r.rule_name ≠ ""

/-! ## Helper lemmas -/

theorem resultInvariant_not_applicable (i : Expr) (n m : String) (hn : n ≠ "") :
    resultInvariant (not_applicable i n m) :=
  ⟨fun _ => ⟨rfl, rfl⟩, fun h => absurd h (by simp [not_applicable]), hn⟩

theorem resultInvariant_mk (i o : Expr) (n m : String) (st : List String)
    (hst : st ≠ []) (hm : m ≠ "") (hn : n ≠ "") :
    resultInvariant ⟨i, o, true, n, m, st⟩ :=
  ⟨fun h => absurd h (by simp), fun _ => ⟨hst, hm⟩, hn⟩

theorem resultInvariant_power (e : Expr) (v : String) :
    resultInvariant (apply_power_rule_derivative e v) := by
  dsimp only [apply_power_rule_derivative]
  split
  · exact resultInvariant_not_applicable _ _ _ (by decide)
  · exact resultInvariant_mk _ _ _ _ _ (by simp) (by decide) (by decide)

theorem resultInvariant_constant_multiple (e : Expr) (v : String) :
    resultInvariant (apply_constant_multiple_derivative e v) := by
  dsimp only [apply_constant_multiple_derivative]
  split
  · exact resultInvariant_not_applicable _ _ _ (by decide)
  · exact resultInvariant_mk _ _ _ _ _ (by simp) (by decide) (by decide)

theorem resultInvariant_product (e : Expr) (v : String) :
    resultInvariant (apply_product_rule e v) := by
  dsimp only [apply_product_rule]
  split
  · exact resultInvariant_not_applicable _ _ _ (by decide)
  · split
    · exact resultInvariant_mk _ _ _ _ _ (by simp) (by decide) (by decide)
    · exact resultInvariant_not_applicable _ _ _ (by decide)

theorem resultInvariant_chainAux (v : String) (e : Expr) :
    resultInvariant (chainAux v e) := by
  cases e <;> dsimp only [chainAux]
  case pow g n =>
    split
    · exact resultInvariant_mk _ _ _ _ _ (by simp) (by decide) (by decide)
    · exact resultInvariant_not_applicable _ _ _ (by decide)
  case exp g =>
    split
    · exact resultInvariant_mk _ _ _ _ _ (by simp) (by decide) (by decide)
    · exact resultInvariant_not_applicable _ _ _ (by decide)
  case log g =>
    split
    · exact resultInvariant_mk _ _ _ _ _ (by simp) (by decide) (by decide)
    · exact resultInvariant_not_applicable _ _ _ (by decide)
  case sin g =>
    split
    · exact resultInvariant_mk _ _ _ _ _ (by simp) (by decide) (by decide)
    · exact resultInvariant_not_applicable _ _ _ (by decide)
  case cos g =>
    split
    · exact resultInvariant_mk _ _ _ _ _ (by simp) (by decide) (by decide)
    · exact resultInvariant_not_applicable _ _ _ (by decide)
  all_goals exact resultInvariant_not_applicable _ _ _ (by decide)

theorem resultInvariant_chain (e : Expr) (v : String) :
    resultInvariant (apply_chain_rule e v) :=
  resultInvariant_chainAux v (simp0 e)

theorem resultInvariant_exponential (e : Expr) (v : String) :
    resultInvariant (apply_exponential_derivative_rule e v) := by
  cases e <;> dsimp only [apply_exponential_derivative_rule]
  case pow a expo =>
    split
    · exact resultInvariant_not_applicable _ _ _ (by decide)
    · split
      · exact resultInvariant_not_applicable _ _ _ (by decide)
      · exact resultInvariant_mk _ _ _ _ _ (by simp) (by decide) (by decide)
  all_goals exact resultInvariant_not_applicable _ _ _ (by decide)

theorem resultInvariant_runAuto (e : Expr) (v : String) :
    resultInvariant (runAuto e v) := by
  dsimp only [runAuto]
  split
  · exact resultInvariant_power e v
  · split
    · exact resultInvariant_constant_multiple e v
    · split
      · exact resultInvariant_product e v
      · split
        · exact resultInvariant_chain e v
        · exact resultInvariant_exponential e v

theorem resultInvariant_differentiate (e : Expr) (v : String) :
    resultInvariant (differentiate_with_rules e v) := by
  dsimp only [differentiate_with_rules]
  split
  · exact resultInvariant_runAuto e v
  · exact resultInvariant_mk _ _ _ _ _ (by simp) (by decide) (by decide)

theorem power_rule_name (e : Expr) (v : String) :
    (apply_power_rule_derivative e v).rule_name = "power_rule" := by
  dsimp only [apply_power_rule_derivative]
  split <;> rfl

theorem constant_multiple_rule_name (e : Expr) (v : String) :
    (apply_constant_multiple_derivative e v).rule_name = "constant_multiple_rule" := by
  dsimp only [apply_constant_multiple_derivative]
  split <;> rfl

theorem product_rule_name (e : Expr) (v : String) :
    (apply_product_rule e v).rule_name = "product_rule" := by
  dsimp only [apply_product_rule]
  split
  · rfl
  · split <;> rfl

theorem chain_rule_name (e : Expr) (v : String) :
    (apply_chain_rule e v).rule_name = "chain_rule" := by
  dsimp only [apply_chain_rule]
  cases simp0 e <;> dsimp only [chainAux] <;> first | rfl | (split <;> rfl)

theorem exponential_rule_name (e : Expr) (v : String) :
    (apply_exponential_derivative_rule e v).rule_name = "exponential_rule" := by
  cases e <;> dsimp only [apply_exponential_derivative_rule]
  case pow a expo =>
    split
    · rfl
    · split <;> rfl
  all_goals rfl

theorem beqE_eq_sym (a : Expr) (v : String) : beqE a (.sym v) = true ↔ a = .sym v := by
  cases a <;> simp [beqE]

theorem beqE_eq_num (a : Expr) (k : Int) : beqE a (.num k) = true ↔ a = .num k := by
  cases a <;> simp [beqE]

theorem beqE_num_eq_false (a : Expr) (k : Int) : beqE a (.num k) = false ↔ a ≠ .num k := by
  constructor
  · intro h hk
    rw [hk] at h
    simp [beqE] at h
  · intro h
    cases hb : beqE a (.num k)
    · rfl
    · exact absurd ((beqE_eq_num a k).mp hb) h

/-- The spec's chain-rule applicability condition: one of the five outer
forms `g^n` (with `n` variable-independent and not 1), `exp(g)`, `ln(g)`,
`sin(g)`, `cos(g)`, in each case with `g` depending on the variable. -/
def chainPattern (v : String) (e : Expr) : Prop :=
  (∃ g n, e = .pow g n ∧ Expr.hasVar v g = true ∧ Expr.hasVar v n = false ∧ n ≠ .num 1) ∨
  (∃ g, e = .exp g ∧ Expr.hasVar v g = true) ∨
  (∃ g, e = .log g ∧ Expr.hasVar v g = true) ∨
  (∃ g, e = .sin g ∧ Expr.hasVar v g = true) ∨
  (∃ g, e = .cos g ∧ Expr.hasVar v g = true)

theorem chainAux_applied_iff (v : String) (e : Expr) :
    (chainAux v e).applied = true ↔ chainPattern v e := by
  cases e <;> dsimp only [chainAux]
  case pow g n =>
    split
    next hcond =>
      obtain ⟨h1, h2, h3⟩ := hcond
      refine ⟨fun _ => Or.inl ⟨g, n, rfl, h1, h2, (beqE_num_eq_false n 1).mp h3⟩, fun _ => rfl⟩
    next hcond =>
      simp only [not_applicable]
      constructor
      · intro h
        exact absurd h (by simp)
      · rintro (⟨g', n', heq, hg, hn, hne⟩ | ⟨g', heq, _⟩ | ⟨g', heq, _⟩ | ⟨g', heq, _⟩ | ⟨g', heq, _⟩) <;>
          try cases heq
        exact (hcond ⟨hg, hn, (beqE_num_eq_false n 1).mpr hne⟩).elim
  case exp g =>
    split
    next hcond =>
      exact ⟨fun _ => Or.inr (Or.inl ⟨g, rfl, hcond⟩), fun _ => rfl⟩
    next hcond =>
      simp only [not_applicable]
      constructor
      · intro h
        exact absurd h (by simp)
      · rintro (⟨g', n', heq, _⟩ | ⟨g', heq, hg⟩ | ⟨g', heq, _⟩ | ⟨g', heq, _⟩ | ⟨g', heq, _⟩) <;>
          try cases heq
        exact (hcond hg).elim
  case log g =>
    split
    next hcond =>
      exact ⟨fun _ => Or.inr (Or.inr (Or.inl ⟨g, rfl, hcond⟩)), fun _ => rfl⟩
    next hcond =>
      simp only [not_applicable]
      constructor
      · intro h
        exact absurd h (by simp)
      · rintro (⟨g', n', heq, _⟩ | ⟨g', heq, _⟩ | ⟨g', heq, hg⟩ | ⟨g', heq, _⟩ | ⟨g', heq, _⟩) <;>
          try cases heq
        exact (hcond hg).elim
  case sin g =>
    split
    next hcond =>
      exact ⟨fun _ => Or.inr (Or.inr (Or.inr (Or.inl ⟨g, rfl, hcond⟩))), fun _ => rfl⟩
    next hcond =>
      simp only [not_applicable]
      constructor
      · intro h
        exact absurd h (by simp)
      · rintro (⟨g', n', heq, _⟩ | ⟨g', heq, _⟩ | ⟨g', heq, _⟩ | ⟨g', heq, hg⟩ | ⟨g', heq, _⟩) <;>
          try cases heq
        exact (hcond hg).elim
  case cos g =>
    split
    next hcond =>
      exact ⟨fun _ => Or.inr (Or.inr (Or.inr (Or.inr ⟨g, rfl, hcond⟩))), fun _ => rfl⟩
    next hcond =>
      simp only [not_applicable]
      constructor
      · intro h
        exact absurd h (by simp)
      · rintro (⟨g', n', heq, _⟩ | ⟨g', heq, _⟩ | ⟨g', heq, _⟩ | ⟨g', heq, _⟩ | ⟨g', heq, hg⟩) <;>
          try cases heq
        exact (hcond hg).elim
  all_goals simp [chainPattern, not_applicable]

/-- C4: The chain rule applies exactly when the simplified expression has
one of the five outer forms `g^n` (`n` variable-independent, not 1),
`exp(g)`, `ln(g)`, `sin(g)`, `cos(g)` with `g` depending on the variable,
and the output is the corresponding closed form `n*g^(n-1)*g'`,
`exp(g)*g'`, `g'/g`, `cos(g)*g'`, `-sin(g)*g'`, simplified.  In
particular, on the text `sin(2*x)` it applies with output `2*cos(2*x)`. -/
theorem c4_chain_rule_patterns (e : Expr) (v : String) :
    ((apply_chain_rule e v).applied = true ↔ chainPattern v (simp0 e)) ∧
    (∀ g n, simp0 e = .pow g n → Expr.hasVar v g = true → Expr.hasVar v n = false →
        n ≠ .num 1 →
        (apply_chain_rule e v).output_expr =
          simp0 (.mul [n, .pow g (.add [n, .num (-1)]), diffE v g])) ∧
    (∀ g, simp0 e = .exp g → Expr.hasVar v g = true →
        (apply_chain_rule e v).output_expr = simp0 (.mul [.exp g, diffE v g])) ∧
    (∀ g, simp0 e = .log g → Expr.hasVar v g = true →
        (apply_chain_rule e v).output_expr = simp0 (.mul [diffE v g, .pow g (.num (-1))])) ∧
    (∀ g, simp0 e = .sin g → Expr.hasVar v g = true →
        (apply_chain_rule e v).output_expr = simp0 (.mul [.cos g, diffE v g])) ∧
    (∀ g, simp0 e = .cos g → Expr.hasVar v g = true →
        (apply_chain_rule e v).output_expr = simp0 (.mul [.num (-1), .sin g, diffE v g])) ∧
    chainRuleStr "sin(2*x)" "x" = .ok
      { input_expr := .sin (.mul [.num 2, .sym "x"])
        output_expr := .mul [.num 2, .cos (.mul [.num 2, .sym "x"])]
        applied := true
        rule_name := "chain_rule"
        message := "Applied chain rule for sine."
        steps := ["Match pattern sin(g(x)).", "Derivative: cos(g(x)) times dg/dx."] } := by
  refine ⟨chainAux_applied_iff v (simp0 e), ?_, ?_, ?_, ?_, ?_, rfl⟩
  · intro g n hsimp hg hn hne
    dsimp only [apply_chain_rule]
    rw [hsimp]
    dsimp only [chainAux]
    rw [if_pos ⟨hg, hn, (beqE_num_eq_false n 1).mpr hne⟩]
  · intro g hsimp hg
    dsimp only [apply_chain_rule]
    rw [hsimp]
    dsimp only [chainAux]
    rw [if_pos hg]
  · intro g hsimp hg
    dsimp only [apply_chain_rule]
    rw [hsimp]
    dsimp only [chainAux]
    rw [if_pos hg]
  · intro g hsimp hg
    dsimp only [apply_chain_rule]
    rw [hsimp]
    dsimp only [chainAux]
    rw [if_pos hg]
  · intro g hsimp hg
    dsimp only [apply_chain_rule]
    rw [hsimp]
    dsimp only [chainAux]
    rw [if_pos hg]

/-- C5: The power rule applies exactly when the expanded expression is a
polynomial in the designated variable, and its output is then the
simplified derivative of that expanded polynomial.  In particular, on the
text `x^3 + x^2 + 8` it applies with output `3*x^2 + 2*x`, and on
`sin(x) + x^2` it reports not applicable under rule name `power_rule`. -/
theorem c5_power_rule_polynomial (e : Expr) (v : String) :
    ((apply_power_rule_derivative e v).applied = true ↔ isPoly v (expandE e) = true) ∧
    (isPoly v (expandE e) = true →
        (apply_power_rule_derivative e v).output_expr = simp0 (diffE v (expandE e))) ∧
    powerRuleStr "x^3 + x^2 + 8" "x" = .ok
      { input_expr := .add [.pow (.sym "x") (.num 3), .pow (.sym "x") (.num 2), .num 8]
        output_expr := .add [.mul [.num 3, .pow (.sym "x") (.num 2)], .mul [.num 2, .sym "x"]]
        applied := true
        rule_name := "power_rule"
        message := "Applied power rule term-by-term (polynomial)."
        steps := ["Recognize polynomial in x.", "Differentiate each term."] } ∧
    powerRuleStr "sin(x) + x^2" "x" = .ok
      (not_applicable (.add [.sin (.sym "x"), .pow (.sym "x") (.num 2)]) "power_rule"
        "Not applicable: expression is not a polynomial in x (power-rule mode).") := by
  refine ⟨?_, ?_, rfl, rfl⟩
  · dsimp only [apply_power_rule_derivative]
    split
    next h => simp [not_applicable, h]
    next h =>
      simp only [Bool.not_eq_false] at h
      simp [h]
  · intro hp
    dsimp only [apply_power_rule_derivative]
    rw [if_neg (by simp [hp])]

/-- C6: The product rule applies exactly when the simplified expression is
literally a product and, after separating its variable-independent
factors, exactly two remaining factors depend on the variable; the output
is then `c*(f1*diff(f2) + diff(f1)*f2)` simplified.  In particular, on the
text `(x+1)*(x+2)*(x+3)` it reports not applicable, because three factors
depend on the variable. -/
theorem c6_product_rule_two_factors (e : Expr) (v : String) :
    ((apply_product_rule e v).applied = true ↔
      (isMul (simp0 e) = true ∧
       ((factorsOf (as_independent v (simp0 e)).2).filter
          (fun f => Expr.hasVar v f)).length = 2)) ∧
    (∀ f1 f2,
      isMul (simp0 e) = true →
      (factorsOf (as_independent v (simp0 e)).2).filter (fun f => Expr.hasVar v f) = [f1, f2] →
      (apply_product_rule e v).output_expr =
        simp0 (.mul [(as_independent v (simp0 e)).1,
                     .add [.mul [f1, diffE v f2], .mul [diffE v f1, f2]]])) ∧
    productRuleStr "(x+1)*(x+2)*(x+3)" "x" = .ok
      (not_applicable
        (.mul [.add [.sym "x", .num 1], .add [.sym "x", .num 2], .add [.sym "x", .num 3]])
        "product_rule"
        "Not applicable: product rule requires exactly two x-dependent factors (simple mode).") := by
  refine ⟨?_, ?_, rfl⟩
  · dsimp only [apply_product_rule]
    split
    next h => simp [not_applicable, h]
    next h =>
      simp only [Bool.not_eq_false] at h
      split
      next f1 f2 heq =>
        rw [heq]
        simp [h]
      next hno =>
        simp only [not_applicable, h, true_and]
        constructor
        · intro hfalse
          exact absurd hfalse (by simp)
        · intro hlen
          obtain ⟨a, b, hab⟩ := List.length_eq_two.mp hlen
          exact (hno a b hab).elim
  · intro f1 f2 hm hf
    dsimp only [apply_product_rule]
    rw [if_neg (by simp [hm]), hf]

/-- C7: `differentiate_with_rules` first delegates to the dispatcher in
auto mode and returns its result unchanged when it applied; otherwise it
returns a `symbolic_fallback` result with `applied = true`, output the
simplified generic derivative, a fixed message and a single-step trail.
It never returns `applied = false`; on `x^x`, which no matcher accepts, it
yields rule name `symbolic_fallback` with `applied = true`. -/
theorem c7_fallback_differentiator (e : Expr) (v : String) :
    ((runAuto e v).applied = true → differentiate_with_rules e v = runAuto e v) ∧
    ((runAuto e v).applied = false →
        differentiate_with_rules e v =
          { input_expr := e
            output_expr := simp0 (diffE v e)
            applied := true
            rule_name := "symbolic_fallback"
            message := "No simple rule matched; used symbolic differentiation fallback."
            steps := ["Apply generic symbolic derivative d/dx."] }) ∧
    (differentiate_with_rules e v).applied = true ∧
    (differentiateStr "x^x" "x").toOption.map (fun r => (r.rule_name, r.applied)) =
      some ("symbolic_fallback", true) := by
  refine ⟨?_, ?_, ?_, rfl⟩
  · intro h
    dsimp only [differentiate_with_rules]
    rw [if_pos h]
  · intro h
    dsimp only [differentiate_with_rules]
    rw [if_neg (by simp [h])]
  · dsimp only [differentiate_with_rules]
    split
    next h => exact h
    next h => rfl

/-- C8: A matcher fails if and only if its textual input fails to parse;
the failure is the `InvalidExpressionError` carrying the offending text
with a user-actionable message of the form "Invalid expression: ...",
while "not applicable" is an ordinary result with `applied = false` (never
an error).  In particular, the malformed text `x**` fails to parse with
such an error. -/
theorem c8_parse_failure_errors (s v : String) :
    (∀ err, parse_expr s = .error err →
        powerRuleStr s v = .error err ∧
        constantMultipleStr s v = .error err ∧
        productRuleStr s v = .error err ∧
        chainRuleStr s v = .error err ∧
        exponentialRuleStr s v = .error err ∧
        err = .invalidExpression s
          ("Invalid expression: " ++ s ++ ". Please provide a valid math expression in x.")) ∧
    (∀ e, parse_expr s = .ok e →
        powerRuleStr s v = .ok (apply_power_rule_derivative e v) ∧
        constantMultipleStr s v = .ok (apply_constant_multiple_derivative e v) ∧
        productRuleStr s v = .ok (apply_product_rule e v) ∧
        chainRuleStr s v = .ok (apply_chain_rule e v) ∧
        exponentialRuleStr s v = .ok (apply_exponential_derivative_rule e v)) ∧
    parse_expr "x**" = .error (.invalidExpression "x**" (invalidExprMsg "x**")) := by
  refine ⟨?_, ?_, rfl⟩
  · intro err herr
    refine ⟨by dsimp only [powerRuleStr]; rw [herr]; rfl,
            by dsimp only [constantMultipleStr]; rw [herr]; rfl,
            by dsimp only [productRuleStr]; rw [herr]; rfl,
            by dsimp only [chainRuleStr]; rw [herr]; rfl,
            by dsimp only [exponentialRuleStr]; rw [herr]; rfl, ?_⟩
    dsimp only [parse_expr] at herr
    split at herr
    · exact absurd herr (by simp)
    · injection herr with h
      exact h.symm
  · intro e he
    exact ⟨by dsimp only [powerRuleStr]; rw [he]; rfl,
           by dsimp only [constantMultipleStr]; rw [he]; rfl,
           by dsimp only [productRuleStr]; rw [he]; rfl,
           by dsimp only [chainRuleStr]; rw [he]; rfl,
           by dsimp only [exponentialRuleStr]; rw [he]; rfl⟩

/-- C9: For every rule choice outside {auto, power_rule,
constant_multiple_rule, product_rule, chain_rule, exponential_rule}, the
dispatcher fails with `UnknownRuleError` carrying the invalid name, whose
message mentions "Unknown rule" and lists the allowed set. -/
theorem c9_unknown_rule_error (e : Expr) (v r : String)
    (h : r ∉ ["auto", "power_rule", "constant_multiple_rule", "product_rule",
              "chain_rule", "exponential_rule"]) :
    apply_derivative_rule e v r = .error (.unknownRule r (unknownRuleMsg r)) ∧
    unknownRuleMsg r = "Unknown rule " ++ r ++
      ". Allowed values: auto, power_rule, constant_multiple_rule, product_rule, chain_rule, exponential_rule." := by
  simp only [List.mem_cons, List.mem_singleton, not_or] at h
  obtain ⟨h0, h1, h2, h3, h4, h5⟩ := h
  refine ⟨?_, rfl⟩
  have hmap : rule_map r = none := by
    dsimp only [rule_map]
    rw [if_neg (by simp [h1]), if_neg (by simp [h2]), if_neg (by simp [h3]),
        if_neg (by simp [h4]), if_neg (by simp [h5])]
  dsimp only [apply_derivative_rule]
  rw [if_neg (by simp [h0]), hmap]

/-- Witness for C9 at the concrete invalid rule name `bad_rule`. -/
theorem c9_unknown_rule_error_witness :
    "bad_rule" ∉ ["auto", "power_rule", "constant_multiple_rule", "product_rule",
                  "chain_rule", "exponential_rule"] ∧
    (apply_derivative_rule (.sym "x") "x" "bad_rule" =
        .error (.unknownRule "bad_rule" (unknownRuleMsg "bad_rule")) ∧
     unknownRuleMsg "bad_rule" = "Unknown rule " ++ "bad_rule" ++
       ". Allowed values: auto, power_rule, constant_multiple_rule, product_rule, chain_rule, exponential_rule.") :=
  ⟨by decide, c9_unknown_rule_error (.sym "x") "x" "bad_rule" (by decide)⟩


theorem diffE_of_not_has (x : String) (e : Expr) (h : Expr.hasVar x e = false) :
    diffE x e = .num 0 := by
  cases e <;> simp_all [diffE, Expr.hasVar]

theorem hasVarL_eq_false_iff (x : String) (l : List Expr) :
    hasVarL x l = false ↔ ∀ e ∈ l, Expr.hasVar x e = false := by
  induction l with
  | nil => simp [hasVarL]
  | cons a t ih => simp [hasVarL, ih]

mutual

theorem isPoly_of_not_has (x : String) (e : Expr) (h : Expr.hasVar x e = false) :
    isPoly x e = true :=
  match e with
  | .num _ => rfl
  | .sym _ => rfl
  | .add l => by
      simp only [Expr.hasVar] at h
      simpa [isPoly] using isPolyL_of_not_has x l h
  | .mul l => by
      simp only [Expr.hasVar] at h
      simpa [isPoly] using isPolyL_of_not_has x l h
  | .pow b e2 => by
      simp only [Expr.hasVar, Bool.or_eq_false_iff] at h
      simp [isPoly, h.1, h.2]
  | .exp a => by
      simp only [Expr.hasVar] at h
      simp [isPoly, h]
  | .log a => by
      simp only [Expr.hasVar] at h
      simp [isPoly, h]
  | .sin a => by
      simp only [Expr.hasVar] at h
      simp [isPoly, h]
  | .cos a => by
      simp only [Expr.hasVar] at h
      simp [isPoly, h]

theorem isPolyL_of_not_has (x : String) (l : List Expr) (h : hasVarL x l = false) :
    isPolyL x l = true :=
  match l with
  | [] => rfl
  | e :: es => by
      simp only [hasVarL, Bool.or_eq_false_iff] at h
      simp [isPolyL, isPoly_of_not_has x e h.1, isPolyL_of_not_has x es h.2]

end

theorem termsOf_not_has (x : String) (e : Expr) (h : Expr.hasVar x e = false) :
    ∀ t ∈ termsOf e, Expr.hasVar x t = false := by
  cases e <;> simp_all [termsOf, Expr.hasVar, hasVarL_eq_false_iff]

theorem factorsOf_not_has (x : String) (e : Expr) (h : Expr.hasVar x e = false) :
    ∀ t ∈ factorsOf e, Expr.hasVar x t = false := by
  cases e <;> simp_all [factorsOf, Expr.hasVar, hasVarL_eq_false_iff]

theorem joinTerms_not_has (x : String) (l : List Expr)
    (h : ∀ e ∈ l, Expr.hasVar x e = false) :
    ∀ t ∈ joinTerms l, Expr.hasVar x t = false := by
  induction l with
  | nil => simp [joinTerms]
  | cons a t ih =>
      intro u hu
      simp only [joinTerms, List.mem_append] at hu
      rcases hu with hu | hu
      · exact termsOf_not_has x a (h a (by simp)) u hu
      · exact ih (fun e he => h e (List.mem_cons_of_mem _ he)) u hu

theorem joinFactors_not_has (x : String) (l : List Expr)
    (h : ∀ e ∈ l, Expr.hasVar x e = false) :
    ∀ t ∈ joinFactors l, Expr.hasVar x t = false := by
  induction l with
  | nil => simp [joinFactors]
  | cons a t ih =>
      intro u hu
      simp only [joinFactors, List.mem_append] at hu
      rcases hu with hu | hu
      · exact factorsOf_not_has x a (h a (by simp)) u hu
      · exact ih (fun e he => h e (List.mem_cons_of_mem _ he)) u hu

theorem mkAdd_not_has (x : String) (l : List Expr)
    (h : ∀ e ∈ l, Expr.hasVar x e = false) :
    Expr.hasVar x (mkAdd l) = false := by
  match l with
  | [] => rfl
  | [e] => simpa [mkAdd] using h e (by simp)
  | a :: b :: t =>
      simp only [mkAdd, Expr.hasVar]
      exact (hasVarL_eq_false_iff x (a :: b :: t)).mpr h

theorem mkMul_not_has (x : String) (l : List Expr)
    (h : ∀ e ∈ l, Expr.hasVar x e = false) :
    Expr.hasVar x (mkMul l) = false := by
  match l with
  | [] => rfl
  | [e] => simpa [mkMul] using h e (by simp)
  | a :: b :: t =>
      simp only [mkMul, Expr.hasVar]
      exact (hasVarL_eq_false_iff x (a :: b :: t)).mpr h

theorem consAll_not_has (x : String) (l : List Expr) (rest : List (List Expr))
    (hl : ∀ e ∈ l, Expr.hasVar x e = false)
    (hr : ∀ gs ∈ rest, ∀ e ∈ gs, Expr.hasVar x e = false) :
    ∀ fs ∈ consAll l rest, ∀ e ∈ fs, Expr.hasVar x e = false := by
  induction l with
  | nil => simp [consAll]
  | cons a t ih =>
      intro fs hfs e he
      simp only [consAll, List.mem_append, List.mem_map] at hfs
      rcases hfs with ⟨gs, hgs, rfl⟩ | hfs
      · rcases List.mem_cons.mp he with he1 | he2
        · subst he1
          exact hl _ (List.mem_cons_self _ _)
        · exact hr gs hgs e he2
      · exact ih (fun e' he' => hl e' (List.mem_cons_of_mem _ he')) fs hfs e he

theorem cross_not_has (x : String) (lss : List (List Expr))
    (h : ∀ ls ∈ lss, ∀ e ∈ ls, Expr.hasVar x e = false) :
    ∀ fs ∈ cross lss, ∀ e ∈ fs, Expr.hasVar x e = false := by
  induction lss with
  | nil =>
      intro fs hfs e he
      simp only [cross, List.mem_singleton] at hfs
      subst hfs
      simp at he
  | cons l ls ih =>
      exact consAll_not_has x l (cross ls) (h l (by simp))
        (ih (fun ls' h' => h ls' (List.mem_cons_of_mem _ h')))

mutual

theorem expandE_not_has (x : String) (e : Expr) (h : Expr.hasVar x e = false) :
    Expr.hasVar x (expandE e) = false :=
  match e with
  | .num _ => rfl
  | .sym _ => h
  | .add l => by
      simp only [Expr.hasVar] at h
      exact mkAdd_not_has x _ (joinTerms_not_has x _ (expandL_not_has x l h))
  | .mul l => by
      simp only [Expr.hasVar] at h
      dsimp only [expandE]
      apply mkAdd_not_has
      intro t ht
      simp only [List.mem_map] at ht
      obtain ⟨fs, hfs, rfl⟩ := ht
      apply mkMul_not_has
      apply joinFactors_not_has
      refine cross_not_has x ((expandL l).map termsOf) ?_ fs hfs
      intro ls hls
      simp only [List.mem_map] at hls
      obtain ⟨e', he', rfl⟩ := hls
      exact termsOf_not_has x e' (expandL_not_has x l h e' he')
  | .pow b e2 => by
      simp only [Expr.hasVar, Bool.or_eq_false_iff] at h
      simp only [expandE, Expr.hasVar, Bool.or_eq_false_iff]
      exact ⟨expandE_not_has x b h.1, expandE_not_has x e2 h.2⟩
  | .exp a => by
      simp only [Expr.hasVar] at h
      simpa [expandE, Expr.hasVar] using expandE_not_has x a h
  | .log a => by
      simp only [Expr.hasVar] at h
      simpa [expandE, Expr.hasVar] using expandE_not_has x a h
  | .sin a => by
      simp only [Expr.hasVar] at h
      simpa [expandE, Expr.hasVar] using expandE_not_has x a h
  | .cos a => by
      simp only [Expr.hasVar] at h
      simpa [expandE, Expr.hasVar] using expandE_not_has x a h

theorem expandL_not_has (x : String) (l : List Expr) (h : hasVarL x l = false) :
    ∀ e ∈ expandL l, Expr.hasVar x e = false :=
  match l with
  | [] => by simp [expandL]
  | a :: t => by
      simp only [hasVarL, Bool.or_eq_false_iff] at h
      intro e he
      rcases List.mem_cons.mp he with rfl | he2
      · exact expandE_not_has x a h.1
      · exact expandL_not_has x t h.2 e he2

end

/-! ## Claims -/

/-- C1: For every matcher — and the dispatcher and fallback paths that
return their results — the RuleResult invariant holds: whenever `applied`
is false, `output_expr` is structurally equal to `input_expr` and `steps`
is empty; whenever `applied` is true, `steps` is non-empty and `message`
is non-empty; and `rule_name` is always set (non-empty) regardless of
`applied`. -/
theorem c1_rule_result_invariant (e : Expr) (v : String) :
    resultInvariant (apply_power_rule_derivative e v) ∧
    resultInvariant (apply_constant_multiple_derivative e v) ∧
    resultInvariant (apply_product_rule e v) ∧
    resultInvariant (apply_chain_rule e v) ∧
    resultInvariant (apply_exponential_derivative_rule e v) ∧
    resultInvariant (runAuto e v) ∧
    resultInvariant (differentiate_with_rules e v) :=
  ⟨resultInvariant_power e v, resultInvariant_constant_multiple e v,
   resultInvariant_product e v, resultInvariant_chain e v,
   resultInvariant_exponential e v, resultInvariant_runAuto e v,
   resultInvariant_differentiate e v⟩

/-- C2: The dispatcher called with rule choice `auto` runs the matchers in
the fixed order [power_rule, constant_multiple_rule, product_rule,
chain_rule, exponential_rule] and returns the first result with
`applied = true` (so the returned `rule_name` is never later in that order
than the first applicable matcher); if no matcher applies, it returns the
exponential rule's not-applicable result, still with `applied = false`, so
no fallback differentiation is performed. -/
theorem c2_dispatcher_auto_order (e : Expr) (v : String) :
    apply_derivative_rule e v "auto" = .ok (runAuto e v) ∧
    ((apply_power_rule_derivative e v).applied = true →
        runAuto e v = apply_power_rule_derivative e v ∧
        (runAuto e v).rule_name = "power_rule") ∧
    ((apply_power_rule_derivative e v).applied = false →
     (apply_constant_multiple_derivative e v).applied = true →
        runAuto e v = apply_constant_multiple_derivative e v ∧
        (runAuto e v).rule_name = "constant_multiple_rule") ∧
    ((apply_power_rule_derivative e v).applied = false →
     (apply_constant_multiple_derivative e v).applied = false →
     (apply_product_rule e v).applied = true →
        runAuto e v = apply_product_rule e v ∧
        (runAuto e v).rule_name = "product_rule") ∧
    ((apply_power_rule_derivative e v).applied = false →
     (apply_constant_multiple_derivative e v).applied = false →
     (apply_product_rule e v).applied = false →
     (apply_chain_rule e v).applied = true →
        runAuto e v = apply_chain_rule e v ∧
        (runAuto e v).rule_name = "chain_rule") ∧
    ((apply_power_rule_derivative e v).applied = false →
     (apply_constant_multiple_derivative e v).applied = false →
     (apply_product_rule e v).applied = false →
     (apply_chain_rule e v).applied = false →
        runAuto e v = apply_exponential_derivative_rule e v ∧
        (runAuto e v).rule_name = "exponential_rule" ∧
        ((apply_exponential_derivative_rule e v).applied = false →
          (runAuto e v).applied = false)) := by
  refine ⟨rfl, ?_, ?_, ?_, ?_, ?_⟩
  · intro h1
    have : runAuto e v = apply_power_rule_derivative e v := by
      dsimp only [runAuto]
      simp [h1]
    exact ⟨this, this ▸ power_rule_name e v⟩
  · intro h1 h2
    have : runAuto e v = apply_constant_multiple_derivative e v := by
      dsimp only [runAuto]
      simp [h1, h2]
    exact ⟨this, this ▸ constant_multiple_rule_name e v⟩
  · intro h1 h2 h3
    have : runAuto e v = apply_product_rule e v := by
      dsimp only [runAuto]
      simp [h1, h2, h3]
    exact ⟨this, this ▸ product_rule_name e v⟩
  · intro h1 h2 h3 h4
    have : runAuto e v = apply_chain_rule e v := by
      dsimp only [runAuto]
      simp [h1, h2, h3, h4]
    exact ⟨this, this ▸ chain_rule_name e v⟩
  · intro h1 h2 h3 h4
    have : runAuto e v = apply_exponential_derivative_rule e v := by
      dsimp only [runAuto]
      simp [h1, h2, h3, h4]
    exact ⟨this, this ▸ exponential_rule_name e v, fun h5 => this ▸ h5⟩

/-- C3: The exponential rule inspects the parse with no prior
simplification and applies exactly when the expression is a power whose
exponent is literally the bare variable and whose base does not depend on
the variable; the output is then `expr * ln(base)` simplified.  In
particular, on the text `2^(3*x)` it returns `applied = false`, because
the parsed exponent `3*x` is not the bare variable. -/
theorem c3_exponential_rule_exact (e : Expr) (v : String) :
    ((apply_exponential_derivative_rule e v).applied = true ↔
      ∃ a, e = .pow a (.sym v) ∧ Expr.hasVar v a = false) ∧
    (∀ a, e = .pow a (.sym v) → Expr.hasVar v a = false →
      (apply_exponential_derivative_rule e v).output_expr =
        simp0 (.mul [e, .log a])) ∧
    exponentialRuleStr "2^(3*x)" "x" =
      .ok (not_applicable (.pow (.num 2) (.mul [.num 3, .sym "x"]))
            "exponential_rule" "Not applicable: exponent is not x.") := by
  refine ⟨?_, ?_, ?_⟩
  · cases e <;> dsimp only [apply_exponential_derivative_rule]
    case pow a expo =>
      by_cases hb : beqE expo (.sym v) = true
      · have hx : expo = .sym v := (beqE_eq_sym expo v).mp hb
        subst hx
        rw [if_neg (by simp [hb])]
        by_cases ha : Expr.hasVar v a = true
        · rw [if_pos ha]
          simp [not_applicable, ha]
        · rw [if_neg ha]
          simp only [Bool.not_eq_true] at ha
          simp [ha]
      · rw [if_pos (by simpa using hb)]
        simp only [not_applicable]
        constructor
        · intro h
          exact absurd h (by simp)
        · rintro ⟨a', ha', _⟩
          injection ha' with h1 h2
          subst h2
          exact (hb (by simp [beqE])).elim
    all_goals simp [not_applicable]
  · intro a ha hfree
    subst ha
    dsimp only [apply_exponential_derivative_rule]
    rw [if_neg (by simp [beqE]), if_neg (by simp [hfree])]
  · rfl

/-- C10: Every expression free of the designated variable (a bare
constant, or a transcendental expression in other symbols) is treated by
the power rule as a polynomial: the rule applies with output 0, and the
auto dispatcher therefore classifies every variable-free expression as
`power_rule` and never reaches the later matchers. -/
theorem c10_variable_free_power_rule (e : Expr) (v : String)
    (h : Expr.hasVar v e = false) :
    (apply_power_rule_derivative e v).applied = true ∧
    (apply_power_rule_derivative e v).output_expr = .num 0 ∧
    runAuto e v = apply_power_rule_derivative e v ∧
    (runAuto e v).rule_name = "power_rule" := by
  have hex : Expr.hasVar v (expandE e) = false := expandE_not_has v e h
  have hp : isPoly v (expandE e) = true := isPoly_of_not_has v (expandE e) hex
  have happ : (apply_power_rule_derivative e v).applied = true := by
    dsimp only [apply_power_rule_derivative]
    rw [if_neg (by simp [hp])]
  have hout : (apply_power_rule_derivative e v).output_expr = .num 0 := by
    dsimp only [apply_power_rule_derivative]
    rw [if_neg (by simp [hp])]
    dsimp only
    rw [diffE_of_not_has v _ hex]
    rfl
  have hauto : runAuto e v = apply_power_rule_derivative e v := by
    dsimp only [runAuto]
    rw [if_pos happ]
  exact ⟨happ, hout, hauto, by rw [hauto]; exact power_rule_name e v⟩

/-- Witness for C10 at the concrete variable-free transcendental
expression `sin(y)` with variable `x`. -/
theorem c10_variable_free_power_rule_witness :
    (Expr.sin (Expr.sym "y")).hasVar "x" = false ∧
    ((apply_power_rule_derivative (Expr.sin (Expr.sym "y")) "x").applied = true ∧
     (apply_power_rule_derivative (Expr.sin (Expr.sym "y")) "x").output_expr = .num 0 ∧
     runAuto (Expr.sin (Expr.sym "y")) "x" =
       apply_power_rule_derivative (Expr.sin (Expr.sym "y")) "x" ∧
     (runAuto (Expr.sin (Expr.sym "y")) "x").rule_name = "power_rule") :=
  ⟨rfl, c10_variable_free_power_rule (Expr.sin (Expr.sym "y")) "x" rfl⟩

end Calc2
